import Mathlib

/-!
Verification of `wily/state.py`: the `Index` and `State` classes that manage
the wily process state (an ordered, cache-backed index of revision records per
archiver).  Python values appearing as fields of persisted entries are modelled
by `EVal` (strings and operator lists); Python's `OrderedDict` is modelled by an
association list with keyed-update-or-append semantics (`odInsert`); Python
exceptions are modelled by `Except WilyErr`.  The cache collaborator
(`wily/cache.py`) and `Revision` / `resolve_archiver` (`wily/archivers`) are not
part of the analysed source and are modelled from the specification.
-/

set_option autoImplicit false

namespace Wily

/-- A Python value stored in a persisted entry field: either a string (the
revision key / author / date / message fields) or a list of operator names
(the `operators` tag). -/
inductive EVal where
  | vstr (s : String)
  | vops (os : List String)
  deriving DecidableEq

/-- Python truthiness of an `EVal`: empty strings and empty lists are falsy. -/
def EVal.isTruthy : EVal → Bool
  | .vstr s => !(s == "")
  | .vops os => !os.isEmpty

/-- Python truthiness of `self.operators`, whose initial (class-attribute)
value is `None`; `not self.operators` is true for `None` and for falsy values. -/
def optTruthy : Option EVal → Bool
  | none => false
  | some v => v.isTruthy

/-- A persisted entry: a plain field-mapping from field name to value
(a Python `dict`, modelled as an association list). -/
abbrev Entry := List (String × EVal)

/-- Lookup in an association list, as Python `d[k]` finds the value
(`none` models a `KeyError`). -/
def alookup {α : Type} {β : Type} [DecidableEq α] : List (α × β) → α → Option β
  | [], _ => none
  | (k, v) :: rest, key => if key = k then some v else alookup rest key

/-- `OrderedDict` assignment `m[k] = v`: if `k` is already a key, replace its
value in place (position unchanged); otherwise append `(k, v)` at the end. -/
def odInsert {α : Type} {β : Type} [DecidableEq α]
    (m : List (α × β)) (k : α) (v : β) : List (α × β) :=
  if (alookup m k).isSome then
    m.map (fun p => if p.1 = k then (k, v) else p)
  else
    m ++ [(k, v)]

/-- Modelled from the spec: `wily.archivers.Revision` (not under the analysed
source) is an immutable record with exactly the fields key, author name, author
email, date and message; `state.py` constructs it with exactly these keyword
arguments. -/
structure Revision where
  key : EVal
  author_name : EVal
  author_email : EVal
  date : EVal
  message : EVal
  deriving DecidableEq

/-- `dataclasses.asdict` applied to a `Revision`: a field-mapping whose keys
are the dataclass field names. -/
def asdict (r : Revision) : Entry :=
  [("key", r.key), ("author_name", r.author_name), ("author_email", r.author_email),
   ("date", r.date), ("message", r.message)]

/-- The error conditions raised by the modelled code: Python `KeyError`
(missing mapping key), `TypeError` (the `__contains__` contract guard), the
error of `resolve_archiver` on an unknown archiver name, and Python
`IndexError` (`self.archivers[0]` on an empty list). -/
inductive WilyErr where
  | keyError
  | typeError
  | archiverResolution
  | indexOutOfRange
  deriving DecidableEq

/-- Modelled from the spec: the state of the cache-store collaborator
(`wily/cache.py`, not under the analysed source): one persisted entry list per
archiver name, the list of archiver names it reports, and whether the backing
location exists. -/
structure Cache where
  indices : List (String × List Entry)
  archiverNames : List String
  cacheExists : Bool
  deriving DecidableEq

/-- Modelled from the spec: `cache.has_index(config, name) -> bool` reports
whether a persisted index exists for the archiver name. -/
def cache.has_index (c : Cache) (name : String) : Bool :=
  (alookup c.indices name).isSome

/-- Modelled from the spec: `cache.get_index(config, name)` returns the ordered
list of persisted entry field-mappings for the archiver name. -/
def cache.get_index (c : Cache) (name : String) : List Entry :=
  (alookup c.indices name).getD []

/-- Modelled from the spec: `cache.store_index(config, archiver, data)` writes
the full list, atomically replacing any prior persisted list (total overwrite). -/
def cache.store_index (c : Cache) (name : String) (data : List Entry) : Cache :=
  { c with indices := odInsert c.indices name data }

/-- Modelled from the spec: `cache.list_archivers(config)` lists the archiver
names known to the cache store. -/
def cache.list_archivers (c : Cache) : List String :=
  c.archiverNames

/-- Modelled from the spec: `cache.exists(config) -> bool` checks whether the
cache store's backing location exists. -/
def cache.existsLoc (c : Cache) : Bool :=
  c.cacheExists

/-- Modelled from the spec: `cache.create(config)` creates the backing
location, after which `cache.exists` reports true. -/
def cache.create (c : Cache) : Cache :=
  { c with cacheExists := true }

/-- The in-memory state of an `Index` object: the archiver it is bound to, the
`operators` attribute (class-attribute default `None`), and the `_revisions`
ordered mapping from revision key to revision record. -/
structure Index where
  archiverName : String
  operators : Option EVal
  _revisions : List (EVal × Revision)
  deriving DecidableEq

/-- A freshly instantiated `Index` before the load loop: `operators` is `None`
and `_revisions` is an empty `OrderedDict`. -/
def initIndex (name : String) : Index :=
  { archiverName := name, operators := none, _revisions := [] }

/-- `Index.add`: `self._revisions[revision.key] = revision`. -/
def Index.add (i : Index) (r : Revision) : Index :=
  { i with _revisions := odInsert i._revisions r.key r }

/-- `Index.__len__`: `len(self._revisions)`. -/
def Index.length (i : Index) : Nat :=
  i._revisions.length

/-- The `Index.revisions` property: `list(self._revisions.values())`. -/
def Index.revisions (i : Index) : List Revision :=
  i._revisions.map Prod.snd

/-- The `Index.revision_keys` property: `list(self._revisions.keys())`. -/
def Index.revision_keys (i : Index) : List EVal :=
  i._revisions.map Prod.fst

/-- The first statement of the `Index.__init__` loop body:
`if not self.operators: self.operators = d['operators']` — a `KeyError` when
the field is missing and `self.operators` is falsy. -/
def opStep (d : Entry) (idx : Index) : Except WilyErr Index :=
  if optTruthy idx.operators then .ok idx
  else
    match alookup d "operators" with
    | some v => .ok { idx with operators := some v }
    | none => .error .keyError

/-- The revision record `Index.__init__` constructs from a persisted entry:
`Revision(key=d['revision'], author_name=d['author_name'],
author_email=d['author_email'], date=d['date'], message=d['message'])`, or
`none` (a `KeyError`) when a field is missing. -/
def entryToRev (d : Entry) : Option Revision :=
  match alookup d "revision", alookup d "author_name", alookup d "author_email",
        alookup d "date", alookup d "message" with
  | some k, some an, some ae, some dt, some msg =>
    some { key := k, author_name := an, author_email := ae, date := dt, message := msg }
  | _, _, _, _, _ => none

/-- The `for d in self.data` loop of `Index.__init__`: for each entry run the
operators statement, then construct a `Revision` from the entry's fields and
`add` it. -/
def loadEntries : List Entry → Index → Except WilyErr Index
  | [], idx => .ok idx
  | d :: rest, idx =>
    match opStep d idx with
    | .error e => .error e
    | .ok idx1 =>
      match entryToRev d with
      | some r => loadEntries rest (idx1.add r)
      | none => .error .keyError

/-- `Index.__init__`: hydrate from `cache.get_index` when `cache.has_index`,
else start from the empty list, then run the load loop. -/
def mkIndex (c : Cache) (name : String) : Except WilyErr Index :=
  loadEntries (if cache.has_index c name then cache.get_index c name else [])
    (initIndex name)

/-- `Index.save`: serialize every held revision record, in current order, with
`dataclasses.asdict`, and write the list through `cache.store_index`. -/
def Index.save (i : Index) (c : Cache) : Cache :=
  cache.store_index c i.archiverName (i._revisions.map (fun p => asdict p.2))

/-- The possible arguments of `Index.__contains__`: a `Revision` record, a
string key, or a value of any other type. -/
inductive ContainsArg where
  | rev (r : Revision)
  | str (s : String)
  | other

/-- `Index.__contains__`: key membership for a `Revision` (via its `key`) or a
string; raises `TypeError` for any other argument type. -/
def Index.contains (i : Index) : ContainsArg → Except WilyErr Bool
  | .rev r => .ok (alookup i._revisions r.key).isSome
  | .str s => .ok (alookup i._revisions (EVal.vstr s)).isSome
  | .other => .error .typeError

/-- `Index.__getitem__`: `self._revisions[index]`, raising `KeyError` when the
key is absent. -/
def Index.getItem (i : Index) (k : EVal) : Except WilyErr Revision :=
  match alookup i._revisions k with
  | some r => .ok r
  | none => .error .keyError

/-- A sequence of `Index.add` calls. -/
def addAll (i : Index) (revs : List Revision) : Index :=
  revs.foldl Index.add i

/-- Modelled from the spec: `wily.archivers.resolve_archiver(name)` (not under
the analysed source) returns an archiver object with a `.name` attribute, and
fails for an unknown name; `known` is the set of resolvable names. -/
structure Archiver where
  name : String
  deriving DecidableEq

/-- Modelled from the spec: archiver resolution by name. -/
def resolve_archiver (known : List String) (n : String) : Except WilyErr Archiver :=
  if known.contains n then .ok { name := n } else .error .archiverResolution

/-- The state of a `State` object: the scoped archiver names, the
`self.index` dict mapping archiver name to its `Index`, and
`default_archiver`. -/
structure State where
  archivers : List String
  index : List (String × Index)
  default_archiver : String
  deriving DecidableEq

/-- The `for archiver in self.archivers` loop of `State.__init__`: resolve each
name and construct an `Index` bound to it, in order; returns the construction
log (one `(name, Index)` pair per loop iteration). -/
def buildIndices (c : Cache) (known : List String) : List String → Except WilyErr (List (String × Index))
  | [] => .ok []
  | n :: rest =>
    match resolve_archiver known n with
    | .error e => .error e
    | .ok a =>
      match mkIndex c a.name with
      | .error e => .error e
      | .ok i =>
        match buildIndices c known rest with
        | .error e => .error e
        | .ok l => .ok ((n, i) :: l)

/-- `State.__init__`: scope is `[archiver.name]` when an archiver is supplied,
else `cache.list_archivers(config)`; one `Index` is constructed per scoped
name (collected into the `self.index` dict); `default_archiver` is
`self.archivers[0]`, an `IndexError` on an empty scope. -/
def mkState (c : Cache) (known : List String) (archiver : Option Archiver) : Except WilyErr State :=
  let archs : List String :=
    match archiver with
    | some a => [a.name]
    | none => cache.list_archivers c
  match buildIndices c known archs with
  | .error e => .error e
  | .ok built =>
    let dict := built.foldl (fun m p => odInsert m p.1 p.2) []
    match archs with
    | [] => .error .indexOutOfRange
    | a :: _ => .ok { archivers := archs, index := dict, default_archiver := a }

/-- `State.ensure_exists`: create the cache's backing location only when it
does not exist.  The returned flag records whether `cache.create` was
invoked. -/
def ensure_exists (c : Cache) : Cache × Bool :=
  if cache.existsLoc c then (c, false) else (cache.create c, true)

/-! ### Lemmas about association-list lookup and ordered-dict insertion -/

theorem alookup_eq_none {α β : Type} [DecidableEq α] (m : List (α × β)) (k : α) :
    alookup m k = none ↔ k ∉ m.map Prod.fst := by
  induction m with
  | nil => simp [alookup]
  | cons p rest ih =>
    obtain ⟨k1, v1⟩ := p
    by_cases h : k = k1 <;> simp [alookup, h, ih]

theorem alookup_isSome_iff {α β : Type} [DecidableEq α] (m : List (α × β)) (k : α) :
    (alookup m k).isSome = true ↔ k ∈ m.map Prod.fst := by
  induction m with
  | nil => simp [alookup]
  | cons p rest ih =>
    obtain ⟨k1, v1⟩ := p
    by_cases h : k = k1 <;> simp [alookup, h, ih]

theorem alookup_append_right {α β : Type} [DecidableEq α] (m : List (α × β)) (k : α) (v : β)
    (h : alookup m k = none) : alookup (m ++ [(k, v)]) k = some v := by
  induction m with
  | nil => simp [alookup]
  | cons p rest ih =>
    obtain ⟨k1, v1⟩ := p
    by_cases hk : k = k1
    · simp [alookup, hk] at h
    · simp only [alookup, List.cons_append, if_neg hk] at h ⊢
      exact ih h

theorem alookup_map_replace {α β : Type} [DecidableEq α] (m : List (α × β)) (k : α) (v : β)
    (h : (alookup m k).isSome = true) :
    alookup (m.map (fun p => if p.1 = k then (k, v) else p)) k = some v := by
  induction m with
  | nil => simp [alookup] at h
  | cons p rest ih =>
    obtain ⟨k1, v1⟩ := p
    by_cases hk : k = k1
    · subst hk
      rw [List.map_cons, if_pos (show ((k, v1).1 = k) from rfl)]
      simp [alookup]
    · simp only [alookup, if_neg hk] at h
      simp only [List.map_cons]
      rw [if_neg (fun hc => hk hc.symm)]
      simp only [alookup, if_neg hk]
      exact ih h

theorem alookup_odInsert_self {α β : Type} [DecidableEq α] (m : List (α × β)) (k : α) (v : β) :
    alookup (odInsert m k v) k = some v := by
  unfold odInsert
  rcases h : alookup m k with _ | w
  · rw [if_neg (by simp [h])]
    exact alookup_append_right m k v h
  · rw [if_pos (by simp [h])]
    exact alookup_map_replace m k v (by simp [h])

theorem odInsert_keys_mem {α β : Type} [DecidableEq α] (m : List (α × β)) (k : α) (v : β)
    (h : (alookup m k).isSome = true) :
    (odInsert m k v).map Prod.fst = m.map Prod.fst := by
  rw [odInsert, if_pos h, List.map_map]
  apply List.map_congr_left
  intro p _
  by_cases hpk : p.1 = k
  · simp [Function.comp, hpk]
  · simp [Function.comp, hpk]

theorem odInsert_keys_new {α β : Type} [DecidableEq α] (m : List (α × β)) (k : α) (v : β)
    (h : alookup m k = none) :
    (odInsert m k v).map Prod.fst = m.map Prod.fst ++ [k] := by
  rw [odInsert, if_neg (by simp [h])]
  simp

theorem odInsert_append_of_none {α β : Type} [DecidableEq α] (m : List (α × β)) (k : α) (v : β)
    (h : alookup m k = none) :
    odInsert m k v = m ++ [(k, v)] := by
  rw [odInsert, if_neg (by simp [h])]

/-! ### Lemmas about the load loop and repeated adds -/

theorem opStep_ok_same (d : Entry) (idx idx1 : Index) (h : opStep d idx = .ok idx1) :
    idx1._revisions = idx._revisions ∧ idx1.archiverName = idx.archiverName := by
  unfold opStep at h
  split at h
  · cases h
    exact ⟨rfl, rfl⟩
  · split at h
    · cases h
      exact ⟨rfl, rfl⟩
    · exact Except.noConfusion h

theorem opStep_truthy (d : Entry) (idx : Index) (h : optTruthy idx.operators = true) :
    opStep d idx = .ok idx := by
  unfold opStep
  rw [if_pos h]

theorem loadEntries_keeps_truthy : ∀ (data : List Entry) (idx out : Index),
    optTruthy idx.operators = true → loadEntries data idx = .ok out →
    out.operators = idx.operators := by
  intro data
  induction data with
  | nil =>
    intro idx out _ h
    cases h
    rfl
  | cons d rest ih =>
    intro idx out ht h
    rw [loadEntries] at h
    split at h
    · exact Except.noConfusion h
    · rename_i idx1 heq
      rw [opStep_truthy d idx ht] at heq
      cases heq
      split at h
      · rename_i r _
        have ht2 : optTruthy (idx.add r).operators = true := ht
        have hout := ih (idx.add r) out ht2 h
        exact hout
      · exact Except.noConfusion h

theorem entryToRev_rev_field (d : Entry) (r : Revision) (h : entryToRev d = some r) :
    alookup d "revision" = some r.key := by
  unfold entryToRev at h
  split at h
  · rename_i k an ae dt msg h1 h2 h3 h4 h5
    cases h
    exact h1
  · exact Option.noConfusion h

theorem addAll_cons (i : Index) (r : Revision) (rest : List Revision) :
    addAll i (r :: rest) = addAll (i.add r) rest := rfl

theorem addAll_keys : ∀ (revs : List Revision) (i : Index),
    (∀ r ∈ revs, r.key ∉ i._revisions.map Prod.fst) →
    (revs.map Revision.key).Nodup →
    (addAll i revs)._revisions.map Prod.fst =
      i._revisions.map Prod.fst ++ revs.map Revision.key := by
  intro revs
  induction revs with
  | nil =>
    intro i _ _
    simp [addAll]
  | cons r rest ih =>
    intro i hd hn
    have hmem : r.key ∉ i._revisions.map Prod.fst := hd r (List.mem_cons_self r rest)
    have hnone : alookup i._revisions r.key = none := (alookup_eq_none _ _).mpr hmem
    have hkeys : (i.add r)._revisions.map Prod.fst = i._revisions.map Prod.fst ++ [r.key] :=
      odInsert_keys_new i._revisions r.key r hnone
    rw [List.map_cons, List.nodup_cons] at hn
    have hd2 : ∀ r2 ∈ rest, r2.key ∉ (i.add r)._revisions.map Prod.fst := by
      intro r2 hr2
      rw [hkeys]
      simp only [List.mem_append, List.mem_singleton]
      rintro (hin | hkey)
      · exact hd r2 (List.mem_cons_of_mem r hr2) hin
      · exact hn.1 (hkey ▸ List.mem_map_of_mem Revision.key hr2)
    rw [addAll_cons, ih (i.add r) hd2 hn.2, hkeys]
    simp

theorem loadEntries_order : ∀ (data : List Entry) (idx out : Index),
    loadEntries data idx = .ok out →
    (data.map (fun d => alookup d "revision")).Nodup →
    (∀ d ∈ data, ∀ k, alookup d "revision" = some k → k ∉ idx._revisions.map Prod.fst) →
    out._revisions.map (fun p => (some p.1 : Option EVal)) =
        idx._revisions.map (fun p => (some p.1 : Option EVal)) ++
          data.map (fun d => alookup d "revision") ∧
      out._revisions.map (fun p => (some p.2 : Option Revision)) =
        idx._revisions.map (fun p => (some p.2 : Option Revision)) ++ data.map entryToRev := by
  intro data
  induction data with
  | nil =>
    intro idx out h _ _
    cases h
    simp
  | cons d rest ih =>
    intro idx out h hn hd
    rw [loadEntries] at h
    split at h
    · exact Except.noConfusion h
    · rename_i idx1 heq1
      split at h
      · rename_i r heq2
        obtain ⟨hrev1, _⟩ := opStep_ok_same d idx idx1 heq1
        have hrevfield : alookup d "revision" = some r.key := entryToRev_rev_field d r heq2
        have hkeynotin : r.key ∉ idx._revisions.map Prod.fst :=
          hd d (List.mem_cons_self d rest) r.key hrevfield
        have hnone : alookup idx1._revisions r.key = none := by
          rw [hrev1]
          exact (alookup_eq_none _ _).mpr hkeynotin
        have hadd : (idx1.add r)._revisions = idx._revisions ++ [(r.key, r)] := by
          show odInsert idx1._revisions r.key r = _
          rw [odInsert_append_of_none _ _ _ hnone, hrev1]
        rw [List.map_cons, List.nodup_cons] at hn
        have hd2 : ∀ d2 ∈ rest, ∀ k, alookup d2 "revision" = some k →
            k ∉ (idx1.add r)._revisions.map Prod.fst := by
          intro d2 hd2m k hk
          rw [hadd]
          simp only [List.map_append, List.mem_append, List.map_cons, List.map_nil,
            List.mem_singleton]
          rintro (hin | hkey)
          · exact hd d2 (List.mem_cons_of_mem d hd2m) k hk hin
          · apply hn.1
            show alookup d "revision" ∈ _
            rw [hrevfield, ← hkey, ← hk]
            exact List.mem_map_of_mem _ hd2m
        obtain ⟨ihk, ihv⟩ := ih (idx1.add r) out h hn.2 hd2
        constructor
        · rw [ihk, hadd]
          simp [hrevfield]
        · rw [ihv, hadd]
          simp [heq2]
      · exact Except.noConfusion h

theorem buildIndices_names (c : Cache) (known : List String) :
    ∀ (names : List String) (l : List (String × Index)),
      buildIndices c known names = .ok l → l.map Prod.fst = names := by
  intro names
  induction names with
  | nil =>
    intro l h
    cases h
    rfl
  | cons n rest ih =>
    intro l h
    rw [buildIndices] at h
    split at h
    · exact Except.noConfusion h
    · split at h
      · exact Except.noConfusion h
      · split at h
        · exact Except.noConfusion h
        · rename_i l2 heql
          cases h
          simp [ih l2 heql]

theorem asdict_no_operators (r : Revision) : alookup (asdict r) "operators" = none := rfl

/-! ### Claim C1: round-trip persistence -/

/-- C1: The round-trip law fails in the code: `Index.save` writes
`dataclasses.asdict` field-mappings, whose keys are the `Revision` field names
(`key`, `author_name`, `author_email`, `date`, `message`) with no `operators`
field, while `Index.__init__` reads the fields `operators` and `revision`.
Hence constructing a fresh `Index` against the same cache store and archiver
after saving any index holding at least one revision raises a `KeyError`
instead of reproducing the saved `revision_keys` and field values. -/
theorem save_then_reload_fails (i : Index) (c : Cache) (h : i._revisions ≠ []) :
    mkIndex (i.save c) i.archiverName = .error .keyError := by
  obtain ⟨p, rest, hpr⟩ := List.exists_cons_of_ne_nil h
  have hsaved : alookup ((i.save c).indices) i.archiverName =
      some (i._revisions.map (fun q => asdict q.2)) :=
    alookup_odInsert_self _ _ _
  rw [mkIndex]
  simp only [cache.has_index, cache.get_index, hsaved, Option.isSome_some, if_true,
    Option.getD_some]
  rw [hpr, List.map_cons, loadEntries]
  have hop : opStep (asdict p.2) (initIndex i.archiverName) = .error .keyError := by
    unfold opStep
    rw [if_neg (by simp [initIndex, optTruthy]), asdict_no_operators]
  rw [hop]

/-- Concrete input for the C1 witness: an index holding one revision. -/
def c1index : Index :=
  { archiverName := "git", operators := none,
    _revisions := [(EVal.vstr "abc123",
      { key := EVal.vstr "abc123", author_name := EVal.vstr "A",
        author_email := EVal.vstr "a@x.com", date := EVal.vstr "2024-01-01",
        message := EVal.vstr "init" })] }

/-- Concrete cache store for the C1 witness. -/
def c1cache : Cache := { indices := [], archiverNames := ["git"], cacheExists := true }

/-- Witness for C1: saving a one-revision index and constructing a fresh
`Index` over the resulting cache fails with a `KeyError`. -/
theorem save_then_reload_fails_witness :
    c1index._revisions ≠ [] ∧
    mkIndex (c1index.save c1cache) c1index.archiverName = .error .keyError :=
  ⟨by decide, save_then_reload_fails c1index c1cache (by decide)⟩

/-! ### Claim C2: the first-seen operators tag -/

/-- C2 (amended): during `Index` construction the `operators` tag is governed
by truthiness, not by being unset: once `self.operators` holds a truthy value,
no later record of the same load pass overwrites it, and in particular when
the first cached record's `operators` value is truthy the tag is set from the
first record and kept.  (As stated the claim fails when the first record's
`operators` value is falsy, e.g. an empty operator list: a later record then
overwrites the tag.) -/
theorem operators_truthy_first_seen :
    (∀ (data : List Entry) (idx out : Index),
        optTruthy idx.operators = true → loadEntries data idx = .ok out →
        out.operators = idx.operators) ∧
    (∀ (name : String) (d : Entry) (rest : List Entry) (v : EVal) (out : Index),
        alookup d "operators" = some v → v.isTruthy = true →
        loadEntries (d :: rest) (initIndex name) = .ok out →
        out.operators = some v) := by
  refine ⟨loadEntries_keeps_truthy, ?_⟩
  intro name d rest v out hop htr h
  rw [loadEntries] at h
  split at h
  · exact Except.noConfusion h
  · rename_i idx1 heq
    have hop1 : opStep d (initIndex name) = .ok { initIndex name with operators := some v } := by
      unfold opStep
      rw [if_neg (by simp [initIndex, optTruthy]), hop]
    rw [hop1] at heq
    cases heq
    split at h
    · exact loadEntries_keeps_truthy rest _ out (by exact htr) h
    · exact Except.noConfusion h

/-- First persisted entry of the C2 counterexample: its `operators` value is
the falsy empty list. -/
def c2xE1 : Entry :=
  [("revision", EVal.vstr "r1"), ("author_name", EVal.vstr "A"),
   ("author_email", EVal.vstr "a@x"), ("date", EVal.vstr "d1"),
   ("message", EVal.vstr "m1"), ("operators", EVal.vops [])]

/-- Second persisted entry of the C2 counterexample, with a different
`operators` value. -/
def c2xE2 : Entry :=
  [("revision", EVal.vstr "r2"), ("author_name", EVal.vstr "B"),
   ("author_email", EVal.vstr "b@x"), ("date", EVal.vstr "d2"),
   ("message", EVal.vstr "m2"), ("operators", EVal.vops ["cyclomatic"])]

/-- Counterexample to C2 as stated: the first cached record carries the
operators tag `[]`, the load succeeds, and the resulting `operators` is the
second record's tag, not the first record's. -/
theorem operators_overwritten_cex :
    alookup c2xE1 "operators" = some (EVal.vops []) ∧
    (loadEntries [c2xE1, c2xE2] (initIndex "git")).toOption.map Index.operators =
      some (some (EVal.vops ["cyclomatic"])) ∧
    (loadEntries [c2xE1, c2xE2] (initIndex "git")).toOption.map Index.operators ≠
      some (some (EVal.vops [])) := by
  refine ⟨rfl, rfl, ?_⟩
  decide

/-- Persisted entry for the C2 witness, carrying a truthy operators tag. -/
def c2wEntry : Entry :=
  [("revision", EVal.vstr "w1"), ("author_name", EVal.vstr "A"),
   ("author_email", EVal.vstr "a@x"), ("date", EVal.vstr "d"),
   ("message", EVal.vstr "m"), ("operators", EVal.vops ["raw"])]

/-- The index produced by loading the single C2 witness entry. -/
def c2wOut : Index :=
  { archiverName := "git", operators := some (EVal.vops ["raw"]),
    _revisions := [(EVal.vstr "w1",
      { key := EVal.vstr "w1", author_name := EVal.vstr "A",
        author_email := EVal.vstr "a@x", date := EVal.vstr "d",
        message := EVal.vstr "m" })] }

/-- Witness for the amended C2 at a concrete load. -/
theorem operators_truthy_first_seen_witness :
    c2wOut.operators = some (EVal.vops ["raw"]) ∧ c2wOut.operators = c2wOut.operators :=
  ⟨operators_truthy_first_seen.2 "git" c2wEntry [] (EVal.vops ["raw"]) c2wOut rfl rfl rfl,
   operators_truthy_first_seen.1 [] c2wOut c2wOut rfl rfl⟩

/-! ### Claim C3: distinct adds -/

/-- C3: for every sequence of `add` calls with pairwise-distinct revision keys
on an initially empty `Index`, the length equals the number of keys added and
`revision_keys` lists the keys in first-insertion order. -/
theorem add_distinct_keys (name : String) (revs : List Revision)
    (hn : (revs.map Revision.key).Nodup) :
    (addAll (initIndex name) revs).length = revs.length ∧
    (addAll (initIndex name) revs).revision_keys = revs.map Revision.key := by
  have hkeys := addAll_keys revs (initIndex name) (by intro r _; simp [initIndex]) hn
  rw [show (initIndex name)._revisions = [] from rfl] at hkeys
  simp only [List.map_nil, List.nil_append] at hkeys
  constructor
  · rw [Index.length, ← List.length_map (addAll (initIndex name) revs)._revisions Prod.fst,
      hkeys, List.length_map]
  · rw [Index.revision_keys]
    exact hkeys

/-- First revision of the C3 witness. -/
def c3ra : Revision :=
  { key := EVal.vstr "a", author_name := EVal.vstr "A", author_email := EVal.vstr "a@x",
    date := EVal.vstr "d1", message := EVal.vstr "m1" }

/-- Second revision of the C3 witness, with a distinct key. -/
def c3rb : Revision :=
  { key := EVal.vstr "b", author_name := EVal.vstr "B", author_email := EVal.vstr "b@x",
    date := EVal.vstr "d2", message := EVal.vstr "m2" }

/-- Witness for C3 at two adds with distinct keys. -/
theorem add_distinct_keys_witness :
    (addAll (initIndex "git") [c3ra, c3rb]).length = 2 ∧
    (addAll (initIndex "git") [c3ra, c3rb]).revision_keys = [EVal.vstr "a", EVal.vstr "b"] := by
  have h := add_distinct_keys "git" [c3ra, c3rb] (by decide)
  exact ⟨h.1, h.2⟩

/-! ### Claim C4: re-adding an existing key -/

/-- C4: for every `Index` and key already present in it, re-adding a revision
with that key leaves the key's position in `revision_keys` unchanged (the whole
key list is unchanged) while `get` on that key afterwards returns the newly
added record. -/
theorem add_existing_key (i : Index) (r : Revision) (h : r.key ∈ i.revision_keys) :
    (i.add r).revision_keys = i.revision_keys ∧ (i.add r).getItem r.key = .ok r := by
  have hs : (alookup i._revisions r.key).isSome = true :=
    (alookup_isSome_iff _ _).mpr h
  constructor
  · exact odInsert_keys_mem i._revisions r.key r hs
  · simp [Index.getItem, Index.add, alookup_odInsert_self]

/-- The record initially stored under key `a` in the C4 witness. -/
def c4old : Revision :=
  { key := EVal.vstr "a", author_name := EVal.vstr "A", author_email := EVal.vstr "a@x",
    date := EVal.vstr "d1", message := EVal.vstr "old" }

/-- A second record of the C4 witness, stored under key `b`. -/
def c4other : Revision :=
  { key := EVal.vstr "b", author_name := EVal.vstr "B", author_email := EVal.vstr "b@x",
    date := EVal.vstr "d2", message := EVal.vstr "other" }

/-- The record re-added under the existing key `a` in the C4 witness. -/
def c4new : Revision :=
  { key := EVal.vstr "a", author_name := EVal.vstr "A", author_email := EVal.vstr "a@x",
    date := EVal.vstr "d3", message := EVal.vstr "new" }

/-- The two-revision index of the C4 witness. -/
def c4idx : Index :=
  { archiverName := "git", operators := none,
    _revisions := [(EVal.vstr "a", c4old), (EVal.vstr "b", c4other)] }

/-- Witness for C4: re-adding key `a` keeps the key order and replaces the
stored record. -/
theorem add_existing_key_witness :
    (c4idx.add c4new).revision_keys = c4idx.revision_keys ∧
    (c4idx.add c4new).getItem c4new.key = .ok c4new :=
  add_existing_key c4idx c4new (by decide)

/-! ### Claim C5: load preserves persisted order -/

/-- C5 (amended): for every persisted entry list whose entries' `revision`
fields are pairwise distinct, after `Index` construction the mapping's
iteration order equals the order of the persisted list: `revision_keys` is the
list of the entries' `revision` fields in persisted order, and `revisions` is
the list of records constructed from the entries in persisted order.  (As
stated, over every persisted list, the claim fails when the list repeats a
revision key: the keyed mapping collapses the duplicates.) -/
theorem load_preserves_order_nodup (name : String) (data : List Entry) (out : Index)
    (h : loadEntries data (initIndex name) = .ok out)
    (hn : (data.map (fun d => alookup d "revision")).Nodup) :
    out.revision_keys.map some = data.map (fun d => alookup d "revision") ∧
    out.revisions.map some = data.map entryToRev := by
  obtain ⟨h1, h2⟩ :=
    loadEntries_order data (initIndex name) out h hn (by intro d _ k _; simp [initIndex])
  rw [show (initIndex name)._revisions = [] from rfl] at h1 h2
  simp only [List.map_nil, List.nil_append] at h1 h2
  constructor
  · rw [Index.revision_keys, List.map_map]
    exact h1
  · rw [Index.revisions, List.map_map]
    exact h2

/-- First persisted entry of the C5 witness. -/
def c5wE1 : Entry :=
  [("revision", EVal.vstr "r1"), ("author_name", EVal.vstr "A"),
   ("author_email", EVal.vstr "a@x"), ("date", EVal.vstr "d1"),
   ("message", EVal.vstr "m1"), ("operators", EVal.vops ["raw"])]

/-- Second persisted entry of the C5 witness, with a distinct revision key. -/
def c5wE2 : Entry :=
  [("revision", EVal.vstr "r2"), ("author_name", EVal.vstr "B"),
   ("author_email", EVal.vstr "b@x"), ("date", EVal.vstr "d2"),
   ("message", EVal.vstr "m2"), ("operators", EVal.vops ["raw"])]

/-- The index obtained by loading the two C5 witness entries. -/
def c5wOut : Index :=
  { archiverName := "git", operators := some (EVal.vops ["raw"]),
    _revisions :=
      [(EVal.vstr "r1",
        { key := EVal.vstr "r1", author_name := EVal.vstr "A",
          author_email := EVal.vstr "a@x", date := EVal.vstr "d1",
          message := EVal.vstr "m1" }),
       (EVal.vstr "r2",
        { key := EVal.vstr "r2", author_name := EVal.vstr "B",
          author_email := EVal.vstr "b@x", date := EVal.vstr "d2",
          message := EVal.vstr "m2" })] }

/-- Witness for the amended C5 at a concrete two-entry persisted list. -/
theorem load_preserves_order_nodup_witness :
    c5wOut.revision_keys.map some = [c5wE1, c5wE2].map (fun d => alookup d "revision") ∧
    c5wOut.revisions.map some = [c5wE1, c5wE2].map entryToRev :=
  load_preserves_order_nodup "git" [c5wE1, c5wE2] c5wOut rfl (by decide)

/-- First persisted entry of the C5 counterexample. -/
def c5xE1 : Entry :=
  [("revision", EVal.vstr "r1"), ("author_name", EVal.vstr "A"),
   ("author_email", EVal.vstr "a@x"), ("date", EVal.vstr "d1"),
   ("message", EVal.vstr "m1"), ("operators", EVal.vops ["raw"])]

/-- Second persisted entry of the C5 counterexample, repeating the revision
key of the first. -/
def c5xE2 : Entry :=
  [("revision", EVal.vstr "r1"), ("author_name", EVal.vstr "B"),
   ("author_email", EVal.vstr "b@x"), ("date", EVal.vstr "d2"),
   ("message", EVal.vstr "m2"), ("operators", EVal.vops ["raw"])]

/-- Counterexample to C5 as stated: a persisted list with a duplicated
revision key loads into a one-entry mapping, whose iteration order is not the
two-entry persisted order. -/
theorem load_order_duplicate_cex :
    (loadEntries [c5xE1, c5xE2] (initIndex "git")).toOption.map Index.length = some 1 ∧
    [c5xE1, c5xE2].length = 2 ∧
    (loadEntries [c5xE1, c5xE2] (initIndex "git")).toOption.map
        (fun i => i.revision_keys.map some) ≠
      some ([c5xE1, c5xE2].map (fun d => alookup d "revision")) := by
  refine ⟨rfl, rfl, ?_⟩
  decide

/-! ### Claim C6: the polymorphic membership check -/

/-- C6: `Index.__contains__` returns the same boolean for a string key and for
a revision record carrying that key, and fails with the `TypeError`-class
condition for an argument of any other type. -/
theorem contains_contract (i : Index) (s : String) (r : Revision) :
    (r.key = EVal.vstr s →
      i.contains (ContainsArg.rev r) = i.contains (ContainsArg.str s)) ∧
    i.contains ContainsArg.other = .error .typeError := by
  refine ⟨?_, rfl⟩
  intro h
  simp [Index.contains, h]

/-- The revision record of the C6 witness. -/
def c6rev : Revision :=
  { key := EVal.vstr "a", author_name := EVal.vstr "A", author_email := EVal.vstr "a@x",
    date := EVal.vstr "d", message := EVal.vstr "m" }

/-- The index of the C6 witness. -/
def c6idx : Index :=
  { archiverName := "git", operators := none, _revisions := [(EVal.vstr "a", c6rev)] }

/-- Witness for C6 at a concrete index, key and record. -/
theorem contains_contract_witness :
    c6idx.contains (ContainsArg.rev c6rev) = c6idx.contains (ContainsArg.str "a") ∧
    c6idx.contains ContainsArg.other = .error .typeError :=
  ⟨(contains_contract c6idx "a" c6rev).1 rfl, (contains_contract c6idx "a" c6rev).2⟩

/-! ### Claim C7: lookup by key -/

/-- C7: `Index.__getitem__` returns the stored revision record when the key is
present, and fails with the `KeyError`-class condition (the KeyNotFound
condition of the spec) when the key is absent — never a default or sentinel. -/
theorem getitem_contract (i : Index) (k : EVal) :
    (∀ r : Revision, alookup i._revisions k = some r → i.getItem k = .ok r) ∧
    (k ∉ i.revision_keys → i.getItem k = .error .keyError) := by
  constructor
  · intro r h
    simp [Index.getItem, h]
  · intro h
    have hnone : alookup i._revisions k = none := (alookup_eq_none _ _).mpr h
    simp [Index.getItem, hnone]

/-- The revision record of the C7 witness. -/
def c7rev : Revision :=
  { key := EVal.vstr "p", author_name := EVal.vstr "A", author_email := EVal.vstr "a@x",
    date := EVal.vstr "d", message := EVal.vstr "m" }

/-- The one-revision index of the C7 witness. -/
def c7idx : Index :=
  { archiverName := "git", operators := none, _revisions := [(EVal.vstr "p", c7rev)] }

/-- Witness for C7: a present key returns the stored record, an absent key
fails with the `KeyError`-class condition. -/
theorem getitem_contract_witness :
    c7idx.getItem (EVal.vstr "p") = .ok c7rev ∧
    c7idx.getItem (EVal.vstr "q") = .error .keyError :=
  ⟨(getitem_contract c7idx (EVal.vstr "p")).1 c7rev rfl,
   (getitem_contract c7idx (EVal.vstr "q")).2 (by decide)⟩

/-! ### Claim C8: State construction scope -/

/-- C8: for every successful `State` construction, the scope is exactly
`[archiver.name]` when an archiver is supplied and the cache store's reported
archiver names otherwise; `default_archiver` is the first scoped name, and the
construction loop builds exactly one `Index` per scoped name (the construction
log of `buildIndices` carries the scoped names in order). -/
theorem state_scope_spec (c : Cache) (known : List String) :
    (∀ (a : Archiver) (st : State), mkState c known (some a) = .ok st →
        st.archivers = [a.name] ∧ st.archivers.head? = some st.default_archiver ∧
        (buildIndices c known st.archivers).map (fun l => l.map Prod.fst) =
          .ok st.archivers) ∧
    (∀ st : State, mkState c known none = .ok st →
        st.archivers = cache.list_archivers c ∧
        st.archivers.head? = some st.default_archiver ∧
        (buildIndices c known st.archivers).map (fun l => l.map Prod.fst) =
          .ok st.archivers) := by
  constructor
  · intro a st h
    simp only [mkState] at h
    split at h
    · exact Except.noConfusion h
    · rename_i built heqb
      cases h
      refine ⟨rfl, rfl, ?_⟩
      rw [heqb, Except.map]
      rw [buildIndices_names c known [a.name] built heqb]
  · intro st h
    rcases harch : cache.list_archivers c with _ | ⟨a0, rest⟩
    · simp only [mkState, harch, buildIndices] at h
      exact Except.noConfusion h
    · simp only [mkState, harch] at h
      split at h
      · exact Except.noConfusion h
      · rename_i built heqb
        cases h
        refine ⟨rfl, rfl, ?_⟩
        rw [heqb, Except.map]
        rw [buildIndices_names c known (a0 :: rest) built heqb]

/-- The cache store of the C8 witness, reporting archivers `git` and `svn`. -/
def c8cache : Cache :=
  { indices := [], archiverNames := ["git", "svn"], cacheExists := true }

/-- The archiver names resolvable in the C8 witness. -/
def c8known : List String := ["git", "svn"]

/-- The state built by the C8 witness with an explicit archiver. -/
def c8stA : State :=
  { archivers := ["git"], index := [("git", initIndex "git")], default_archiver := "git" }

/-- The state built by the C8 witness with no explicit archiver. -/
def c8stN : State :=
  { archivers := ["git", "svn"],
    index := [("git", initIndex "git"), ("svn", initIndex "svn")],
    default_archiver := "git" }

/-- Witness for C8: both construction modes at concrete inputs, matching the
spec scenario with archivers `["git","svn"]`. -/
theorem state_scope_spec_witness :
    (c8stA.archivers = ["git"] ∧ c8stA.archivers.head? = some c8stA.default_archiver ∧
      (buildIndices c8cache c8known c8stA.archivers).map (fun l => l.map Prod.fst) =
        .ok c8stA.archivers) ∧
    (c8stN.archivers = cache.list_archivers c8cache ∧
      c8stN.archivers.head? = some c8stN.default_archiver ∧
      (buildIndices c8cache c8known c8stN.archivers).map (fun l => l.map Prod.fst) =
        .ok c8stN.archivers) :=
  ⟨(state_scope_spec c8cache c8known).1 { name := "git" } c8stA rfl,
   (state_scope_spec c8cache c8known).2 c8stN rfl⟩

/-! ### Claim C9: ensure_exists is idempotent -/

/-- C9: when the cache store's backing location already exists,
`ensure_exists` performs no creation call and does not raise; across any two
consecutive calls the creation collaborator is invoked at most once. -/
theorem ensure_exists_idempotent (c : Cache) :
    (cache.existsLoc c = true → ensure_exists c = (c, false)) ∧
    (ensure_exists c).2.toNat + (ensure_exists (ensure_exists c).1).2.toNat ≤ 1 := by
  constructor
  · intro h
    rw [ensure_exists, if_pos h]
  · cases hc : c.cacheExists with
    | false => simp [ensure_exists, cache.existsLoc, cache.create, hc]
    | true => simp [ensure_exists, cache.existsLoc, hc]

/-- The already-existing cache store of the C9 witness. -/
def c9cache : Cache := { indices := [], archiverNames := [], cacheExists := true }

/-- Witness for C9 at a cache store that already exists. -/
theorem ensure_exists_idempotent_witness :
    ensure_exists c9cache = (c9cache, false) ∧
    (ensure_exists c9cache).2.toNat +
      (ensure_exists (ensure_exists c9cache).1).2.toNat ≤ 1 :=
  ⟨(ensure_exists_idempotent c9cache).1 rfl, (ensure_exists_idempotent c9cache).2⟩

/-! ### Claim C10: empty archiver list -/

/-- C10: when no archiver is supplied and the cache store reports an empty
archiver list, `State` construction constructs zero `Index` objects (the
construction loop over the empty scope yields the empty log) and then fails
with the index-out-of-range condition when computing `default_archiver`. -/
theorem state_empty_archivers_indexerror (c : Cache) (known : List String)
    (h : cache.list_archivers c = []) :
    buildIndices c known (cache.list_archivers c) = .ok [] ∧
    mkState c known none = .error .indexOutOfRange := by
  constructor
  · rw [h]
    rfl
  · simp only [mkState, h, buildIndices]

/-- The cache store of the C10 witness, reporting no archivers. -/
def c10cache : Cache := { indices := [], archiverNames := [], cacheExists := true }

/-- Witness for C10 at a cache store reporting no archivers. -/
theorem state_empty_archivers_indexerror_witness :
    buildIndices c10cache [] (cache.list_archivers c10cache) = .ok [] ∧
    mkState c10cache [] none = .error .indexOutOfRange :=
  state_empty_archivers_indexerror c10cache [] rfl

end Wily
